import Mathlib

/-!
Verification of the geometric/numeric core of the gl2d 2D vector-graphics
toolkit: the 2D affine-matrix algebra (Mat2d), rect arithmetic, packed
vertex/index buffers, mesh generation (regular polygon, star, spray
instancing), point-in-polygon containment, and the camera pan/zoom
clamping arithmetic.

The TypeScript sources are embedded shallowly: numbers become elements of
a linear ordered field (instantiated at the rationals for executable
checks and at the reals where the code uses trigonometry); the flat
Float32Array buffers become lists; in-place mutation becomes functions
returning the updated value.  Where the exact IEEE behaviour of
JavaScript numbers matters (division by zero producing Infinity/NaN in
Mat2d.setInverse), a small extended-number type JsNum mirrors it.
-/

namespace Gl2d

/-! ## Vec2 (src/struct/vec2.template.ts)

A two-dimensional vector with (x,y) components.  The same representation
doubles as a point. -/

structure Vec2 (α : Type) where
  x : α
  y : α
deriving DecidableEq, Repr

namespace Vec2

/-- add (Vec2.add / targetPosition.add(desiredOffset) in the sources): componentwise sum. -/
def add {α : Type} [LinearOrderedField α] (v w : Vec2 α) : Vec2 α :=
  ⟨v.x + w.x, v.y + w.y⟩

/-- setFromPointToPoint / Vec2.fromPointToPoint: the vector from the initial
point to the terminal point. -/
def fromPointToPoint {α : Type} [LinearOrderedField α] (initial terminal : Vec2 α) : Vec2 α :=
  ⟨terminal.x - initial.x, terminal.y - initial.y⟩

end Vec2

/-! ## Mat2d (src/unnamed/part_019, struct/mat2d.template.ts)

A 3x2 matrix for 2d transformations, stored as two rows of three columns
with an implicit bottom row (0,0,1). -/

structure Mat2d (α : Type) where
  c1r1 : α
  c2r1 : α
  c3r1 : α
  c1r2 : α
  c2r2 : α
  c3r2 : α
deriving DecidableEq, Repr

namespace Mat2d

/-- determinant(): (c1r1 * c2r2) - (c2r1 * c1r2). -/
def determinant {α : Type} [LinearOrderedField α] (m : Mat2d α) : α :=
  (m.c1r1 * m.c2r2) - (m.c2r1 * m.c1r2)

/-- setIdentity(): the identity matrix. -/
def identity {α : Type} [LinearOrderedField α] : Mat2d α :=
  ⟨1, 0, 0, 0, 1, 0⟩

/-- setConcat(left, right): the matrix product left * right, row by row as in
the source. -/
def setConcat {α : Type} [LinearOrderedField α] (left right : Mat2d α) : Mat2d α :=
  { c1r1 := left.c1r1 * right.c1r1 + left.c2r1 * right.c1r2
    c2r1 := left.c1r1 * right.c2r1 + left.c2r1 * right.c2r2
    c3r1 := left.c1r1 * right.c3r1 + left.c2r1 * right.c3r2 + left.c3r1
    c1r2 := left.c1r2 * right.c1r1 + left.c2r2 * right.c1r2
    c2r2 := left.c1r2 * right.c2r1 + left.c2r2 * right.c2r2
    c3r2 := left.c1r2 * right.c3r1 + left.c2r2 * right.c3r2 + left.c3r2 }

/-- map$(x, y, dst): applies the affine transform to the point (x,y). -/
def map' {α : Type} [LinearOrderedField α] (m : Mat2d α) (x y : α) : Vec2 α :=
  ⟨m.c1r1 * x + m.c2r1 * y + m.c3r1, m.c1r2 * x + m.c2r2 * y + m.c3r2⟩

/-- map(src, dst): applies the affine transform to a point. -/
def map {α : Type} [LinearOrderedField α] (m : Mat2d α) (p : Vec2 α) : Vec2 α :=
  m.map' p.x p.y

/-- setTranslate$(dx, dy): translation matrix. -/
def setTranslate' {α : Type} [LinearOrderedField α] (dx dy : α) : Mat2d α :=
  ⟨1, 0, dx, 0, 1, dy⟩

/-- setSinCos(sin, cos) without a pivot point: rotation matrix from its sine
and cosine. -/
def setSinCos {α : Type} [LinearOrderedField α] (sin cos : α) : Mat2d α :=
  ⟨cos, -sin, 0, sin, cos, 0⟩

/-- setScale(sx, sy) without a pivot point: scale matrix. -/
def setScale {α : Type} [LinearOrderedField α] (sx sy : α) : Mat2d α :=
  ⟨sx, 0, 0, 0, sy, 0⟩

/-- setRotate(radians) without a pivot point: setSinCos(Math.sin(radians),
Math.cos(radians)). -/
noncomputable def setRotate (radians : ℝ) : Mat2d ℝ :=
  setSinCos (Real.sin radians) (Real.cos radians)

/-- postScale(sx, sy): multiplies the first row by sx and the second row by sy. -/
def postScale {α : Type} [LinearOrderedField α] (m : Mat2d α) (sx sy : α) : Mat2d α :=
  ⟨m.c1r1 * sx, m.c2r1 * sx, m.c3r1 * sx, m.c1r2 * sy, m.c2r2 * sy, m.c3r2 * sy⟩

/-- preScale(sx, sy): multiplies the first column by sx and the second column by sy. -/
def preScale {α : Type} [LinearOrderedField α] (m : Mat2d α) (sx sy : α) : Mat2d α :=
  ⟨m.c1r1 * sx, m.c2r1 * sy, m.c3r1, m.c1r2 * sx, m.c2r2 * sy, m.c3r2⟩

/-- postStretch(ratio): postScale(ratio, ratio). -/
def postStretch {α : Type} [LinearOrderedField α] (m : Mat2d α) (rat : α) : Mat2d α :=
  m.postScale rat rat

/-- postTranslate$(dx, dy): adds (dx, dy) to the third column. -/
def postTranslate' {α : Type} [LinearOrderedField α] (m : Mat2d α) (dx dy : α) : Mat2d α :=
  { m with c3r1 := m.c3r1 + dx, c3r2 := m.c3r2 + dy }

/-- postTranslate(vec): postTranslate$(vec.x, vec.y). -/
def postTranslate {α : Type} [LinearOrderedField α] (m : Mat2d α) (vec : Vec2 α) : Mat2d α :=
  m.postTranslate' vec.x vec.y

/-- preTranslate$(dx, dy): adds the mapped vector to the third column. -/
def preTranslate' {α : Type} [LinearOrderedField α] (m : Mat2d α) (dx dy : α) : Mat2d α :=
  { m with
    c3r1 := m.c3r1 + (m.c1r1 * dx + m.c2r1 * dy)
    c3r2 := m.c3r2 + (m.c1r2 * dx + m.c2r2 * dy) }

/-- postConcat(other): this = other * this. -/
def postConcat {α : Type} [LinearOrderedField α] (m other : Mat2d α) : Mat2d α :=
  setConcat other m

/-- preConcat(other): this = this * other. -/
def preConcat {α : Type} [LinearOrderedField α] (m other : Mat2d α) : Mat2d α :=
  setConcat m other

/-- setInverse(other), read over an exact field: the closed-form 2x3 inverse
computed with the reciprocal determinant, exactly as in the source. -/
def setInverse {α : Type} [LinearOrderedField α] (other : Mat2d α) : Mat2d α :=
  let invDet := 1 / (other.c1r1 * other.c2r2 - other.c2r1 * other.c1r2)
  { c1r1 := other.c2r2 * invDet
    c2r1 := -other.c2r1 * invDet
    c3r1 := ((other.c2r1 * other.c3r2) - (other.c3r1 * other.c2r2)) * invDet
    c1r2 := -other.c1r2 * invDet
    c2r2 := other.c1r1 * invDet
    c3r2 := ((other.c1r2 * other.c3r1) - (other.c1r1 * other.c3r2)) * invDet }

/-- postRotate(radians), faithfully including the source's variable
initialisation: the local named sin receives Math.cos(radians) and the local
named cos receives Math.sin(radians), and the last entry of the second row is
computed as sin * c3r1 + sin * c3r2. -/
noncomputable def postRotate (m : Mat2d ℝ) (radians : ℝ) : Mat2d ℝ :=
  let sin := Real.cos radians
  let cos := Real.sin radians
  { c1r1 := cos * m.c1r1 - sin * m.c1r2
    c2r1 := cos * m.c2r1 - sin * m.c2r2
    c3r1 := cos * m.c3r1 - sin * m.c3r2
    c1r2 := sin * m.c1r1 + cos * m.c1r2
    c2r2 := sin * m.c2r1 + cos * m.c2r2
    c3r2 := sin * m.c3r1 + sin * m.c3r2 }

end Mat2d

/-! ## Rect

Modelled from the spec: the generated struct file rect.template.ts is not
among the provided sources (only its callers are).  Per the spec, a Rect is
four scalars (left, top, right, bottom) with the Y axis growing upward
(bottom below top numerically); width = right - left, height = top - bottom,
center = midpoints; offset adds a vector to both edges on each axis;
mulScalar multiplies all four scalars (the camera re-centers the result at
the origin afterwards, confirming scaling about the origin); stretch(ratio)
resizes about the current center, the semantics the camera call sites rely
on. -/

structure Rect (α : Type) where
  left : α
  top : α
  right : α
  bottom : α
deriving DecidableEq, Repr

namespace Rect

/-- Modelled from the spec: width() = right - left. -/
def width {α : Type} [LinearOrderedField α] (r : Rect α) : α := r.right - r.left

/-- Modelled from the spec: height() = top - bottom (Y axis grows upward). -/
def height {α : Type} [LinearOrderedField α] (r : Rect α) : α := r.top - r.bottom

/-- Modelled from the spec: centerX() = horizontal midpoint. -/
def centerX {α : Type} [LinearOrderedField α] (r : Rect α) : α := (r.left + r.right) / 2

/-- Modelled from the spec: centerY() = vertical midpoint. -/
def centerY {α : Type} [LinearOrderedField α] (r : Rect α) : α := (r.bottom + r.top) / 2

/-- Modelled from the spec: center() as a point. -/
def center {α : Type} [LinearOrderedField α] (r : Rect α) : Vec2 α := ⟨r.centerX, r.centerY⟩

/-- Modelled from the spec: topLeft() corner. -/
def topLeft {α : Type} (r : Rect α) : Vec2 α := ⟨r.left, r.top⟩

/-- Modelled from the spec: bottomRight() corner. -/
def bottomRight {α : Type} (r : Rect α) : Vec2 α := ⟨r.right, r.bottom⟩

/-- Modelled from the spec: bottomLeft() corner. -/
def bottomLeft {α : Type} (r : Rect α) : Vec2 α := ⟨r.left, r.bottom⟩

/-- Modelled from the spec: topRight() corner. -/
def topRight {α : Type} (r : Rect α) : Vec2 α := ⟨r.right, r.top⟩

/-- Modelled from the spec: mulScalar(k) multiplies all four boundaries by k. -/
def mulScalar {α : Type} [LinearOrderedField α] (r : Rect α) (k : α) : Rect α :=
  ⟨r.left * k, r.top * k, r.right * k, r.bottom * k⟩

/-- Modelled from the spec: offset$(dx, dy) translates the rect by (dx, dy). -/
def offset' {α : Type} [LinearOrderedField α] (r : Rect α) (dx dy : α) : Rect α :=
  ⟨r.left + dx, r.top + dy, r.right + dx, r.bottom + dy⟩

/-- Modelled from the spec: offset(vec) translates the rect by the vector. -/
def offsetV {α : Type} [LinearOrderedField α] (r : Rect α) (v : Vec2 α) : Rect α :=
  r.offset' v.x v.y

/-- Modelled from the spec: stretch(ratio) resizes the rect about its center,
multiplying both half-extents by ratio. -/
def stretch {α : Type} [LinearOrderedField α] (r : Rect α) (rat : α) : Rect α :=
  ⟨r.centerX - (r.width / 2) * rat, r.centerY + (r.height / 2) * rat,
   r.centerX + (r.width / 2) * rat, r.centerY - (r.height / 2) * rat⟩

/-- Containment of one rect inside another, with edges included: every
boundary of the inner rect lies within the corresponding boundary of the
outer rect. -/
def insideOf {α : Type} [LinearOrderedField α] (inner outer : Rect α) : Prop :=
  outer.left ≤ inner.left ∧ inner.right ≤ outer.right ∧
  outer.bottom ≤ inner.bottom ∧ inner.top ≤ outer.top

end Rect

/-! ## ScaleToFit and Mat2d.setRectToRect (src/unnamed/part_019) -/

/-- Scale to fit options for a rect-to-rect matrix transformation. -/
inductive ScaleToFit where
  | Center
  | End
  | Fill
  | Start
deriving DecidableEq, Repr

/-- The anchor point setRectToRect matches for a given scale-to-fit mode:
the center for Center, the bottom right corner for End, and the top left
corner for Start and Fill. -/
def scaleToFitAnchor {α : Type} [LinearOrderedField α] (r : Rect α) (stf : ScaleToFit) :
    Vec2 α :=
  match stf with
  | .Center => r.center
  | .End => r.bottomRight
  | _ => r.topLeft

namespace Mat2d

/-- setRectToRect(src, dst, stf): anchor point selection, translate the src
anchor to the origin, scale (independently for Fill, uniformly by
min(sx, sy) otherwise), then translate to the dst anchor. -/
def setRectToRect {α : Type} [LinearOrderedField α] (src dst : Rect α) (stf : ScaleToFit) :
    Mat2d α :=
  let srcPoint := scaleToFitAnchor src stf
  let dstPoint := scaleToFitAnchor dst stf
  let sx := dst.width / src.width
  let sy := dst.height / src.height
  let m := setTranslate' (-srcPoint.x) (-srcPoint.y)
  let m := if stf = ScaleToFit.Fill then m.postScale sx sy else m.postStretch (min sx sy)
  m.postTranslate dstPoint

end Mat2d

/-! ## Camera (src/unnamed/part_004)

The first document in part_004 is the converged revision; its offset and
zoomIn are embedded below as camOffset and zoomIn.  The second document in
the same file holds an earlier revision whose zoomIn differs in one line
(view.stretch(1 / desiredScaleFactor) instead of 1 / actualScaleFactor);
it is embedded separately as zoomInEarlier. -/

structure Camera (α : Type) where
  target : Rect α
  view : Rect α
  position : Vec2 α
  zoom : α
  minZoom : α
  maxZoom : α
deriving DecidableEq, Repr

namespace Camera

/-- The pan range far computed inside offset(): the target scaled by
(zoom - minZoom) / zoom and then re-centered at the origin. -/
def farRect {α : Type} [LinearOrderedField α] (c : Camera α) : Rect α :=
  let far := c.target.mulScalar ((c.zoom - c.minZoom) / c.zoom)
  far.offset' (-far.centerX) (-far.centerY)

/-- offset(desiredOffset): clamps the candidate position per axis against
the pan range far (the target scaled by (zoom - minZoom)/zoom and centered
at the origin), applies the clamped delta to view and position, and returns
the updated camera together with the actual offset. -/
def camOffset {α : Type} [LinearOrderedField α] (c : Camera α) (desiredOffset : Vec2 α) :
    Camera α × Vec2 α :=
  let targetPosition := c.position.add desiredOffset
  let far := c.farRect
  let actualX : α :=
    if targetPosition.x < far.left then far.left - c.position.x
    else if targetPosition.x > far.right then far.right - c.position.x
    else desiredOffset.x
  let actualY : α :=
    if targetPosition.y < far.bottom then far.bottom - c.position.y
    else if targetPosition.y > far.top then far.top - c.position.y
    else desiredOffset.y
  let actualOffset : Vec2 α := ⟨actualX, actualY⟩
  ({ c with view := c.view.offsetV actualOffset, position := c.position.add actualOffset },
   actualOffset)

/-- zoomIn(desiredScaleFactor), converged revision: clamps the target zoom to
[minZoom, maxZoom], stretches the view by 1 / actualScaleFactor and returns
the updated camera together with the actual scale factor. -/
def zoomIn {α : Type} [LinearOrderedField α] (c : Camera α) (desiredScaleFactor : α) :
    Camera α × α :=
  let targetZoom := c.zoom * desiredScaleFactor
  let p : α × α :=
    if targetZoom < c.minZoom then (c.minZoom / c.zoom, c.minZoom)
    else if targetZoom > c.maxZoom then (c.maxZoom / c.zoom, c.maxZoom)
    else (desiredScaleFactor, targetZoom)
  let actualScaleFactor := p.1
  ({ c with zoom := p.2, view := c.view.stretch (1 / actualScaleFactor) }, actualScaleFactor)

/-- zoomIn(desiredScaleFactor), earlier revision (second document of
part_004): identical clamping of the zoom, but the view is stretched by
1 / desiredScaleFactor rather than 1 / actualScaleFactor. -/
def zoomInEarlier {α : Type} [LinearOrderedField α] (c : Camera α) (desiredScaleFactor : α) :
    Camera α × α :=
  let targetZoom := c.zoom * desiredScaleFactor
  let p : α × α :=
    if targetZoom < c.minZoom then (c.minZoom / c.zoom, c.minZoom)
    else if targetZoom > c.maxZoom then (c.maxZoom / c.zoom, c.maxZoom)
    else (desiredScaleFactor, targetZoom)
  let actualScaleFactor := p.1
  ({ c with zoom := p.2, view := c.view.stretch (1 / desiredScaleFactor) }, actualScaleFactor)

/-- The linkage between the camera's view, target, zoom and position that
setViewport establishes when the viewport aspect ratio matches the target:
the view is the target stretched about its center by 1 / zoom and offset by
the position. -/
def Linked {α : Type} [LinearOrderedField α] (c : Camera α) : Prop :=
  c.view = (c.target.stretch (1 / c.zoom)).offsetV c.position

/-- A camera whose target is a well-formed rect and whose zoom bounds
satisfy 1 ≤ minZoom ≤ zoom. -/
def WellFormed {α : Type} [LinearOrderedField α] (c : Camera α) : Prop :=
  c.target.left ≤ c.target.right ∧ c.target.bottom ≤ c.target.top ∧
  1 ≤ c.minZoom ∧ c.minZoom ≤ c.zoom

end Camera

/-! ## JsNum

The extended JavaScript number line needed to follow Mat2d.setInverse on a
degenerate matrix: finite values (kept exact as rationals), the two
infinities, and NaN.  The arithmetic tables follow IEEE-754 double
semantics except that the sign of zero is not represented, so 1/0 is
positive infinity (in JavaScript one divided by negative zero is negative
infinity); nothing below depends on that sign. -/

inductive JsNum where
  | fin (q : ℚ)
  | posInf
  | negInf
  | nan
deriving DecidableEq, Repr

namespace JsNum

/-- Multiplication on JavaScript numbers: NaN propagates, a zero times an
infinity is NaN, a nonzero finite times an infinity is a signed infinity. -/
def mul : JsNum → JsNum → JsNum
  | nan, _ => nan
  | _, nan => nan
  | fin a, fin b => fin (a * b)
  | fin a, posInf => if a = 0 then nan else if 0 < a then posInf else negInf
  | fin a, negInf => if a = 0 then nan else if 0 < a then negInf else posInf
  | posInf, fin b => if b = 0 then nan else if 0 < b then posInf else negInf
  | negInf, fin b => if b = 0 then nan else if 0 < b then negInf else posInf
  | posInf, posInf => posInf
  | posInf, negInf => negInf
  | negInf, posInf => negInf
  | negInf, negInf => posInf

/-- Subtraction on JavaScript numbers: NaN propagates, infinity minus
itself is NaN. -/
def sub : JsNum → JsNum → JsNum
  | nan, _ => nan
  | _, nan => nan
  | fin a, fin b => fin (a - b)
  | fin _, posInf => negInf
  | fin _, negInf => posInf
  | posInf, fin _ => posInf
  | negInf, fin _ => negInf
  | posInf, posInf => nan
  | posInf, negInf => posInf
  | negInf, posInf => negInf
  | negInf, negInf => nan

/-- Negation on JavaScript numbers. -/
def neg : JsNum → JsNum
  | nan => nan
  | fin a => fin (-a)
  | posInf => negInf
  | negInf => posInf

/-- Division on JavaScript numbers: a nonzero finite divided by zero is a
signed infinity, zero divided by zero is NaN. -/
def div : JsNum → JsNum → JsNum
  | nan, _ => nan
  | _, nan => nan
  | fin a, fin b =>
      if b = 0 then (if a = 0 then nan else if 0 < a then posInf else negInf)
      else fin (a / b)
  | fin _, posInf => fin 0
  | fin _, negInf => fin 0
  | posInf, fin b => if 0 ≤ b then posInf else negInf
  | negInf, fin b => if 0 ≤ b then negInf else posInf
  | posInf, _ => nan
  | negInf, _ => nan

/-- Whether a JavaScript number is finite (neither infinite nor NaN). -/
def isFinite : JsNum → Bool
  | fin _ => true
  | _ => false

end JsNum

namespace Mat2d

/-- The six coefficients of a matrix as a list. -/
def entries {α : Type} (m : Mat2d α) : List α :=
  [m.c1r1, m.c2r1, m.c3r1, m.c1r2, m.c2r2, m.c3r2]

/-- setInverse(other) computed with JavaScript number semantics: every
arithmetic operation of the source becomes the corresponding JsNum
operation, so the Infinity/NaN behaviour on a zero determinant is
captured. -/
def setInverseJs (other : Mat2d ℚ) : Mat2d JsNum :=
  let invDet := JsNum.div (.fin 1)
    (JsNum.sub (JsNum.mul (.fin other.c1r1) (.fin other.c2r2))
               (JsNum.mul (.fin other.c2r1) (.fin other.c1r2)))
  { c1r1 := JsNum.mul (.fin other.c2r2) invDet
    c2r1 := JsNum.mul (JsNum.neg (.fin other.c2r1)) invDet
    c3r1 := JsNum.mul (JsNum.sub (JsNum.mul (.fin other.c2r1) (.fin other.c3r2))
                                 (JsNum.mul (.fin other.c3r1) (.fin other.c2r2))) invDet
    c1r2 := JsNum.mul (JsNum.neg (.fin other.c1r2)) invDet
    c2r2 := JsNum.mul (.fin other.c1r1) invDet
    c3r2 := JsNum.mul (JsNum.sub (JsNum.mul (.fin other.c1r2) (.fin other.c3r1))
                                 (JsNum.mul (.fin other.c1r1) (.fin other.c3r2))) invDet }

end Mat2d

/-! ## VertexBuffer (src/struct/vertex.ts and src/unnamed/part_018)

The buffer's flat Float32Array becomes a list of scalars; a vertex at
position i occupies entries 2i and 2i+1.  List.set leaves the list
unchanged when the index is out of range, exactly as writes past the end
of a typed array are discarded in JavaScript. -/

namespace VertexBuffer

/-- Reads data[i]; every theorem below only reads indices that are in
range. -/
def getData {α : Type} [LinearOrderedField α] (data : List α) (i : ℕ) : α :=
  data.getD i 0

/-- The vertex at position i: the pair (data[2i], data[2i+1]). -/
def vertexAt {α : Type} [LinearOrderedField α] (data : List α) (i : ℕ) : α × α :=
  (getData data (2 * i), getData data (2 * i + 1))

/-- The loop body of offset$: each iteration adds dx and dy to the two
entries at the data index and advances by two; iters is the number of
iterations the loop performs. -/
def offsetLoop {α : Type} [LinearOrderedField α] (dx dy : α) :
    List α → ℕ → ℕ → List α
  | data, _, 0 => data
  | data, di, k + 1 =>
      let data1 := data.set di (getData data di + dx)
      let data2 := data1.set (di + 1) (getData data1 (di + 1) + dy)
      offsetLoop dx dy data2 (di + 2) k

/-- offset$(dx, dy, offset, count): the source loop runs for i = 0 to
count inclusive, i.e. count + 1 iterations, starting at data index
offset * structLength(). -/
def offset' {α : Type} [LinearOrderedField α] (dx dy : α) (offset count : ℕ)
    (data : List α) : List α :=
  offsetLoop dx dy data (2 * offset) (count + 1)

/-- The loop body of Mat2d.mapPoints$(src, srcOffset, count): maps count
consecutive vertices in place starting at data index srcOffset. -/
def mapPointsLoop {α : Type} [LinearOrderedField α] (m : Mat2d α) :
    List α → ℕ → ℕ → List α
  | src, _, 0 => src
  | src, si, k + 1 =>
      let x := getData src si
      let y := getData src (si + 1)
      let src1 := src.set si (m.c1r1 * x + m.c2r1 * y + m.c3r1)
      let src2 := src1.set (si + 1) (m.c1r2 * x + m.c2r2 * y + m.c3r2)
      mapPointsLoop m src2 (si + 2) k

/-- Mat2d.mapPoints$(src, srcOffset, count). -/
def mapPoints' {α : Type} [LinearOrderedField α] (m : Mat2d α) (src : List α)
    (srcOffset count : ℕ) : List α :=
  mapPointsLoop m src srcOffset count

/-- transform(matrix, offset, count): the source forwards to
mapPoints$(matrix, this.data, offset * structLength()) without passing
count, so mapPoints$ falls back to its default count
(src.length - srcOffset) >> 1 and maps every vertex from offset to the end
of the buffer. -/
def transform {α : Type} [LinearOrderedField α] (m : Mat2d α) (offset count : ℕ)
    (data : List α) : List α :=
  mapPoints' m data (2 * offset) ((data.length - 2 * offset) / 2)

/-- The edge-crossing test of contains$ for the edge from (x1,y1) to
(x2,y2) against the point (x,y): (y1 > y) !== (y2 > y) && x is left of the
edge's crossing of the horizontal line through y. -/
abbrev isInside {α : Type} [LinearOrderedField α] (x y x1 y1 x2 y2 : α) : Prop :=
  (¬((y1 > y) ↔ (y2 > y))) ∧ x < (x2 - x1) * (y - y1) / (y2 - y1) + x1

/-- The count vertices starting at position offset. -/
def subVertices {α : Type} [LinearOrderedField α] (data : List α) (offset count : ℕ) :
    List (α × α) :=
  (List.range count).map (fun k => vertexAt data (offset + k))

/-- The edges forEachEdge(callback, offset, count) visits: the walk starts
from the last vertex of the subset (the closing edge is implicit) and
steps through the subset in order. -/
def edges {α : Type} [LinearOrderedField α] (data : List α) (offset count : ℕ) :
    List ((α × α) × (α × α)) :=
  List.zip (vertexAt data (offset + count - 1) :: subVertices data offset count)
    (subVertices data offset count)

/-- contains$(x, y, offset, count): toggles an inside flag on every edge
whose crossing test succeeds, starting from false. -/
def contains' {α : Type} [LinearOrderedField α] (x y : α) (data : List α)
    (offset count : ℕ) : Bool :=
  (edges data offset count).foldl
    (fun inside e => if isInside x y e.1.1 e.1.2 e.2.1 e.2.2 then !inside else inside)
    false

/-- The flat buffer data a sequence of rset(vertex) calls produces: the
vertices in order, two entries each. -/
def toData {α : Type} (vs : List (Vec2 α)) : List α :=
  vs.flatMap (fun v => [v.x, v.y])

end VertexBuffer

/-! ## Mesh generation (src/drawable/mesh.ts, src/mesh/polygon.ts)

The sequential-fill protocol of the generated buffers (rset/rset$ writes
at the cursor and advances until hasValidPosition() turns false) becomes
list construction: each generator appends exactly as many structs as the
buffer's capacity. -/

namespace PolygonMesh

/-- The vertex fill loop shared by regularVertices: put the current vertex,
then keep rotating it by rot and putting it until n vertices are stored. -/
def genVertices {α : Type} [LinearOrderedField α] (rot : Mat2d α) :
    Vec2 α → ℕ → List (Vec2 α)
  | _, 0 => []
  | v, n + 1 => v :: genVertices rot (rot.map v) n

/-- regularVertices(n, isFlatTopped): starts from the vertex (0, 1),
rotated by half a sector for a flat-topped polygon, and repeatedly applies
the rotation by 2π/n until the n-vertex buffer is full. -/
noncomputable def regularVertices (n : ℕ) (isFlatTopped : Bool) : List (Vec2 ℝ) :=
  let angle : ℝ := 2 * Real.pi / n
  let rot := Mat2d.setRotate angle
  let vertex : Vec2 ℝ := ⟨0, 1⟩
  let vertex := if isFlatTopped then (Mat2d.setRotate (angle / 2)).map vertex else vertex
  genVertices rot vertex n

/-- The index fill loop of regularIndices: rset$(0, second, third) then
second = third++. -/
def fanIndices : ℕ → ℕ → ℕ → List (ℕ × ℕ × ℕ)
  | _, _, 0 => []
  | second, third, k + 1 => (0, second, third) :: fanIndices third (third + 1) k

/-- regularIndices(n): a triangle fan of n - 2 index triples starting from
second = 1, third = 2. -/
def regularIndices (n : ℕ) : List (ℕ × ℕ × ℕ) :=
  fanIndices 1 2 (n - 2)

/-- The vertex fill loop of starVertices: put the current outer and inner
vertices, then keep rotating both by rot and putting them until the
buffer's capacity of vertex pairs is reached. -/
def genVertexPairs {α : Type} [LinearOrderedField α] (rot : Mat2d α) :
    Vec2 α → Vec2 α → ℕ → List (Vec2 α)
  | _, _, 0 => []
  | outer, inner, k + 1 =>
      outer :: inner :: genVertexPairs rot (rot.map outer) (rot.map inner) k

/-- starVertices(points, ratio): a buffer of 2 * points vertices filled
with alternating outer vertices (radius 1) and inner vertices (radius
ratio, rotated by half a sector), both advanced by a rotation of
2π/points per step. -/
noncomputable def starVertices (points : ℕ) (rat : ℝ) : List (Vec2 ℝ) :=
  let angle : ℝ := 2 * Real.pi / points
  let outerVertex : Vec2 ℝ := ⟨0, 1⟩
  let innerVertex : Vec2 ℝ := (Mat2d.setRotate (0.5 * angle)).map ⟨0, rat⟩
  genVertexPairs (Mat2d.setRotate angle) outerVertex innerVertex points

/-- The inner index loop of starIndices: rset$(first, second, third) then
second = third++; third++. -/
def starInnerIndices : ℕ → ℕ → ℕ → ℕ → List (ℕ × ℕ × ℕ)
  | _, _, _, 0 => []
  | first, second, third, k + 1 =>
      (first, second, third) :: starInnerIndices first third (third + 2) k

/-- The outer index loop of starIndices: rset$(first, second, third) then
first = third++; second = third++. -/
def starOuterIndices : ℕ → ℕ → ℕ → ℕ → List (ℕ × ℕ × ℕ)
  | _, _, _, 0 => []
  | first, second, third, k + 1 =>
      (first, second, third) :: starOuterIndices third (third + 1) (third + 2) k

/-- starIndices(n): n - 2 inner triples starting from (1, 3, 5) followed by
n outer triples starting from (2n - 1, 0, 1). -/
def starIndices (n : ℕ) : List (ℕ × ℕ × ℕ) :=
  starInnerIndices 1 3 5 (n - 2) ++ starOuterIndices (2 * n - 1) 0 1 n

end PolygonMesh

/-! ## Spray instancing (src/drawable/mesh.ts, InstancedPolygonMesh.spray)

The claims about spray concern instance counting and the sizes and index
arithmetic of the packed buffers; those parts are embedded exactly.  The
geometric placement of each copy (stretchAcrossLine) only changes vertex
values, never counts or indices, and is not needed here. -/

/-- What InstancedPolygonMesh.spray returns, seen through the data the
claims are about: the capacity of the returned mesh's vertex buffer in
vertices, its verticesPerInstance field, and the content of its index
tuple buffer. -/
structure SprayMesh where
  vertexCapacity : ℕ
  verticesPerInstance : ℕ
  triples : List (ℕ × ℕ × ℕ)
deriving DecidableEq, Repr

namespace InstancedPolygonMesh

/-- countInstancesInSpray(shapesInInnerRing, rings) =
shapesInInnerRing * ((1 << rings) - 1). -/
def countInstancesInSpray (shapesInInnerRing rings : ℕ) : ℕ :=
  shapesInInnerRing * (1 <<< rings - 1)

/-- The number of copies the inner fill loop places on ring k (0-indexed):
instancesInInnerRing << ring. -/
def sprayRingCopies (instancesInInnerRing ring : ℕ) : ℕ :=
  instancesInInnerRing <<< ring

/-- The total number of instance copies the nested fill loops append to
the packed vertex buffer across all rings. -/
def sprayTotalCopies (instancesInInnerRing rings : ℕ) : ℕ :=
  ((List.range rings).map (sprayRingCopies instancesInInnerRing)).sum

/-- The index-packing loop of spray: for each copy (vertex offset 0, v,
2v, ... while offset < v * instanceCount, i.e. one pass per copy when
v > 0) every index triple of the instance is emitted with the copy's
vertex offset added to all three components. -/
def sprayIndices (instTriples : List (ℕ × ℕ × ℕ)) (v count : ℕ) : List (ℕ × ℕ × ℕ) :=
  (List.range count).flatMap
    (fun c => instTriples.map (fun t => (t.1 + c * v, t.2.1 + c * v, t.2.2 + c * v)))

/-- spray(instance, instancesInInnerRing, rings) as in
src/drawable/mesh.ts: allocates the packed vertex buffer with capacity
instanceVertexCount * instanceCount, packs the index buffer with every
copy's triples offset by that copy's vertex offset, and returns the packed
buffers with verticesPerInstance = instanceVertexCount. -/
def spray (instVertexCount : ℕ) (instTriples : List (ℕ × ℕ × ℕ)) (m rings : ℕ) :
    SprayMesh :=
  let instanceCount := countInstancesInSpray m rings
  { vertexCapacity := instVertexCount * instanceCount
    verticesPerInstance := instVertexCount
    triples := sprayIndices instTriples instVertexCount instanceCount }

/-- spray as in the earlier revision src/mesh/instancedPolygon.ts: the
packed vertex and index buffers are built exactly as above, but the return
statement is new InstancedPolygonMesh(vertices, vertexCount, indices, id)
where vertices and indices are the instance's original buffers, so the
packed buffers are discarded. -/
def sprayEarlier (instVertexCount : ℕ) (instTriples : List (ℕ × ℕ × ℕ)) (m rings : ℕ) :
    SprayMesh :=
  let _instanceCount := countInstancesInSpray m rings
  { vertexCapacity := instVertexCount
    verticesPerInstance := instVertexCount
    triples := instTriples }

end InstancedPolygonMesh

/-! ## Supporting lemmas -/

/-- A finite JavaScript number times positive infinity is never finite:
zero times infinity is NaN and any other finite times infinity is a signed
infinity. -/
theorem jsMul_fin_posInf_isFinite (q : ℚ) :
    (JsNum.mul (.fin q) .posInf).isFinite = false := by
  simp only [JsNum.mul]
  split_ifs <;> rfl

/-- The branch structure of the per-axis clamp in offset(): starting from
position p, adding the adjusted delta lands on the clamp of the candidate
p + x into [lo, hi]. -/
theorem clamp_sum {α : Type} [LinearOrderedField α] (p x lo hi : α) (h : lo ≤ hi) :
    p + (if p + x < lo then lo - p else if p + x > hi then hi - p else x) =
      max lo (min (p + x) hi) := by
  simp only [max_def, min_def]
  split_ifs <;> linarith

/-- One axis of the pan bound: a position q clamped into the far range
[-(s*(hi-lo)/2), s*(hi-lo)/2] with s = (zoom - minZoom)/zoom keeps the
view interval, of half-extent ((hi-lo)/2)/zoom about the target center,
inside the target interval [lo, hi], provided 1 <= minZoom <= zoom. -/
theorem axis_pan_bound {α : Type} [LinearOrderedField α] (lo hi z mz q : α)
    (hlh : lo ≤ hi) (h1 : 1 ≤ mz) (h2 : mz ≤ z)
    (hql : -(((z - mz) / z) * (hi - lo) / 2) ≤ q)
    (hqh : q ≤ ((z - mz) / z) * (hi - lo) / 2) :
    lo ≤ (lo + hi) / 2 - ((hi - lo) / 2) * (1 / z) + q ∧
      (lo + hi) / 2 + ((hi - lo) / 2) * (1 / z) + q ≤ hi := by
  have hz : (0 : α) < z := by linarith
  have hw : (0 : α) ≤ (hi - lo) / 2 := by linarith
  have hmz : 1 / z ≤ mz / z := (div_le_div_iff_of_pos_right hz).mpr h1
  have hfr : (z - mz) / z ≤ 1 - 1 / z := by
    rw [sub_div, div_self hz.ne']
    linarith
  have hkey : ((z - mz) / z) * ((hi - lo) / 2) ≤
      (hi - lo) / 2 - (1 / z) * ((hi - lo) / 2) := by
    have := mul_le_mul_of_nonneg_right hfr hw
    nlinarith
  constructor <;> nlinarith [hkey, hql, hqh]

/-- Translating a rect twice is translating by the vector sum. -/
theorem Rect.offsetV_offsetV {α : Type} [LinearOrderedField α] (r : Rect α)
    (p q : Vec2 α) : (r.offsetV p).offsetV q = r.offsetV (p.add q) := by
  simp only [Rect.offsetV, Rect.offset', Vec2.add, Rect.mk.injEq]
  refine ⟨by ring, by ring, by ring, by ring⟩

/-- The single-call specification of Camera.offset: the new position is the
per-axis clamp of the candidate position into the pan range farRect, the
view and position move by exactly the returned offset, the returned offset
is the applied delta, the camera's target and zoom bounds are untouched,
well-formedness and the view linkage are preserved, and the new view lies
inside the target. -/
theorem camOffset_step {α : Type} [LinearOrderedField α] (c : Camera α)
    (hwf : c.WellFormed) (hl : c.Linked) (v : Vec2 α) :
    ((c.camOffset v).1.position.x =
        max c.farRect.left (min (c.position.x + v.x) c.farRect.right) ∧
      (c.camOffset v).1.position.y =
        max c.farRect.bottom (min (c.position.y + v.y) c.farRect.top)) ∧
    (c.camOffset v).1.view = c.view.offsetV (c.camOffset v).2 ∧
    (c.camOffset v).1.position = c.position.add (c.camOffset v).2 ∧
    (c.camOffset v).2 = Vec2.fromPointToPoint c.position (c.camOffset v).1.position ∧
    (c.camOffset v).1.target = c.target ∧ (c.camOffset v).1.zoom = c.zoom ∧
    (c.camOffset v).1.minZoom = c.minZoom ∧ (c.camOffset v).1.maxZoom = c.maxZoom ∧
    (c.camOffset v).1.WellFormed ∧ (c.camOffset v).1.Linked ∧
    (c.camOffset v).1.view.insideOf c.target := by
  obtain ⟨⟨tl, tpp, tr, bt⟩, vw, ⟨px, py⟩, z, mz, Mz⟩ := c
  obtain ⟨hlr, hbt, h1, h2⟩ := hwf
  have hz : (0 : α) < z := by linarith
  have hs : (0 : α) ≤ (z - mz) / z := div_nonneg (by linarith) hz.le
  have hfar : Camera.farRect ⟨⟨tl, tpp, tr, bt⟩, vw, ⟨px, py⟩, z, mz, Mz⟩ =
      ⟨-(((z - mz) / z) * (tr - tl) / 2), ((z - mz) / z) * (tpp - bt) / 2,
        ((z - mz) / z) * (tr - tl) / 2, -(((z - mz) / z) * (tpp - bt) / 2)⟩ := by
    simp only [Camera.farRect, Rect.mulScalar, Rect.offset', Rect.centerX, Rect.centerY,
      Rect.mk.injEq]
    refine ⟨by ring, by ring, by ring, by ring⟩
  have hlhx : -(((z - mz) / z) * (tr - tl) / 2) ≤ ((z - mz) / z) * (tr - tl) / 2 := by
    nlinarith [mul_nonneg hs (sub_nonneg.mpr hlr)]
  have hlhy : -(((z - mz) / z) * (tpp - bt) / 2) ≤ ((z - mz) / z) * (tpp - bt) / 2 := by
    nlinarith [mul_nonneg hs (sub_nonneg.mpr hbt)]
  have hpx : (Camera.camOffset ⟨⟨tl, tpp, tr, bt⟩, vw, ⟨px, py⟩, z, mz, Mz⟩ v).1.position.x =
      max (-(((z - mz) / z) * (tr - tl) / 2))
        (min (px + v.x) (((z - mz) / z) * (tr - tl) / 2)) := by
    simp only [Camera.camOffset, hfar, Vec2.add]
    exact clamp_sum px v.x _ _ hlhx
  have hpy : (Camera.camOffset ⟨⟨tl, tpp, tr, bt⟩, vw, ⟨px, py⟩, z, mz, Mz⟩ v).1.position.y =
      max (-(((z - mz) / z) * (tpp - bt) / 2))
        (min (py + v.y) (((z - mz) / z) * (tpp - bt) / 2)) := by
    simp only [Camera.camOffset, hfar, Vec2.add]
    exact clamp_sum py v.y _ _ hlhy
  have hlink : (Camera.camOffset ⟨⟨tl, tpp, tr, bt⟩, vw, ⟨px, py⟩, z, mz, Mz⟩ v).1.Linked := by
    simp only [Camera.Linked] at hl ⊢
    simp only [Camera.camOffset]
    rw [hl, Rect.offsetV_offsetV]
  have hinside :
      (Camera.camOffset ⟨⟨tl, tpp, tr, bt⟩, vw, ⟨px, py⟩, z, mz, Mz⟩ v).1.view.insideOf
        ⟨tl, tpp, tr, bt⟩ := by
    have hview := hlink
    simp only [Camera.Linked] at hview
    have htz : (Camera.camOffset ⟨⟨tl, tpp, tr, bt⟩, vw, ⟨px, py⟩, z, mz, Mz⟩ v).1.target =
        ⟨tl, tpp, tr, bt⟩ := rfl
    have hzz : (Camera.camOffset ⟨⟨tl, tpp, tr, bt⟩, vw, ⟨px, py⟩, z, mz, Mz⟩ v).1.zoom =
        z := rfl
    rw [htz, hzz] at hview
    rw [hview]
    have hqx1 : -(((z - mz) / z) * (tr - tl) / 2) ≤
        (Camera.camOffset ⟨⟨tl, tpp, tr, bt⟩, vw, ⟨px, py⟩, z, mz, Mz⟩ v).1.position.x := by
      rw [hpx]; exact le_max_left _ _
    have hqx2 : (Camera.camOffset ⟨⟨tl, tpp, tr, bt⟩, vw, ⟨px, py⟩, z, mz, Mz⟩ v).1.position.x ≤
        ((z - mz) / z) * (tr - tl) / 2 := by
      rw [hpx]; exact max_le hlhx (min_le_right _ _)
    have hqy1 : -(((z - mz) / z) * (tpp - bt) / 2) ≤
        (Camera.camOffset ⟨⟨tl, tpp, tr, bt⟩, vw, ⟨px, py⟩, z, mz, Mz⟩ v).1.position.y := by
      rw [hpy]; exact le_max_left _ _
    have hqy2 : (Camera.camOffset ⟨⟨tl, tpp, tr, bt⟩, vw, ⟨px, py⟩, z, mz, Mz⟩ v).1.position.y ≤
        ((z - mz) / z) * (tpp - bt) / 2 := by
      rw [hpy]; exact max_le hlhy (min_le_right _ _)
    have hx := axis_pan_bound tl tr z mz _ hlr h1 h2 hqx1 hqx2
    have hy := axis_pan_bound bt tpp z mz _ hbt h1 h2 hqy1 hqy2
    simp only [Rect.insideOf, Rect.offsetV, Rect.offset', Rect.stretch, Rect.centerX,
      Rect.centerY, Rect.width, Rect.height]
    refine ⟨?_, ?_, ?_, ?_⟩
    · linarith [hx.1]
    · linarith [hx.2]
    · linarith [hy.1]
    · linarith [hy.2]
  have hret : (Camera.camOffset ⟨⟨tl, tpp, tr, bt⟩, vw, ⟨px, py⟩, z, mz, Mz⟩ v).2 =
      Vec2.fromPointToPoint (⟨px, py⟩ : Vec2 α)
        (Camera.camOffset ⟨⟨tl, tpp, tr, bt⟩, vw, ⟨px, py⟩, z, mz, Mz⟩ v).1.position := by
    simp only [Camera.camOffset, Vec2.fromPointToPoint, Vec2.add, Vec2.mk.injEq]
    refine ⟨by ring, by ring⟩
  rw [hfar]
  exact ⟨⟨hpx, hpy⟩, rfl, rfl, hret, rfl, rfl, rfl, rfl, ⟨hlr, hbt, h1, h2⟩, hlink, hinside⟩

/-- Applying any sequence of offset calls to a well-formed, linked camera
preserves well-formedness, the linkage and the target, and once at least
one call has been made the view lies inside the target. -/
theorem camOffset_foldl {α : Type} [LinearOrderedField α] :
    ∀ (l : List (Vec2 α)) (c : Camera α), c.WellFormed → c.Linked →
      (l.foldl (fun s w => (s.camOffset w).1) c).WellFormed ∧
      (l.foldl (fun s w => (s.camOffset w).1) c).Linked ∧
      (l.foldl (fun s w => (s.camOffset w).1) c).target = c.target ∧
      (l ≠ [] → (l.foldl (fun s w => (s.camOffset w).1) c).view.insideOf c.target)
  | [], _, hwf, hl => ⟨hwf, hl, rfl, fun h => absurd rfl h⟩
  | a :: l, c, hwf, hl => by
      obtain ⟨_, _, _, _, htgt, _, _, _, hwf1, hl1, hin1⟩ := camOffset_step c hwf hl a
      have ih := camOffset_foldl l ((c.camOffset a).1) hwf1 hl1
      simp only [List.foldl_cons]
      refine ⟨ih.1, ih.2.1, ih.2.2.1.trans htgt, fun _ => ?_⟩
      rcases l with _ | ⟨b, l2⟩
      · simpa [htgt] using hin1
      · exact htgt ▸ ih.2.2.2 (by simp)

/-- The length of a flat map over List.range with blocks of equal length. -/
theorem flatMapRange_length {β : Type} (g : ℕ → List β) (t : ℕ)
    (ht : ∀ cNum, (g cNum).length = t) :
    ∀ count, ((List.range count).flatMap g).length = count * t := by
  intro count
  induction count with
  | zero => simp
  | succ n ih =>
      rw [List.range_succ]
      simp only [List.flatMap_append, List.flatMap_cons, List.flatMap_nil,
        List.append_nil, List.length_append, ih, ht, Nat.succ_mul]

/-- Indexing into a flat map over List.range with blocks of equal length:
the element at position cNum * t + j is element j of block cNum. -/
theorem flatMapRange_getD {β : Type} (g : ℕ → List β) (t : ℕ)
    (ht : ∀ cNum, (g cNum).length = t) (d : β) :
    ∀ count cNum j, cNum < count → j < t →
      ((List.range count).flatMap g).getD (cNum * t + j) d = (g cNum).getD j d := by
  intro count
  induction count with
  | zero => intro cNum j hc _; exact absurd hc (Nat.not_lt_zero _)
  | succ n ih =>
      intro cNum j hc hj
      have hsplit : (List.range (n + 1)).flatMap g = (List.range n).flatMap g ++ g n := by
        rw [List.range_succ]
        simp
      rw [hsplit]
      rcases Nat.lt_or_ge cNum n with h | h
      · rw [List.getD_append]
        · exact ih cNum j h hj
        · rw [flatMapRange_length g t ht n]
          calc cNum * t + j < cNum * t + t := by omega
            _ = (cNum + 1) * t := by ring
            _ ≤ n * t := Nat.mul_le_mul_right t h
      · have hcn : cNum = n := by omega
        subst hcn
        rw [List.getD_append_right]
        · rw [flatMapRange_length g t ht cNum]
          congr 1
          omega
        · rw [flatMapRange_length g t ht cNum]
          omega

/-- Applying the rotation matrix for angle theta to a point in polar form
advances its angle by theta. -/
theorem rotate_map_polar (theta rr phi : ℝ) :
    (Mat2d.setRotate theta).map ⟨rr * Real.cos phi, rr * Real.sin phi⟩ =
      ⟨rr * Real.cos (phi + theta), rr * Real.sin (phi + theta)⟩ := by
  simp only [Mat2d.setRotate, Mat2d.setSinCos, Mat2d.map, Mat2d.map', Real.cos_add,
    Real.sin_add, Vec2.mk.injEq]
  constructor <;> ring

/-- The vertex fill loop produces as many vertices as requested. -/
theorem genVertices_length {α : Type} [LinearOrderedField α] (rot : Mat2d α) :
    ∀ (n : ℕ) (v : Vec2 α), (PolygonMesh.genVertices rot v n).length = n
  | 0, _ => rfl
  | n + 1, v => by
      rw [PolygonMesh.genVertices, List.length_cons, genVertices_length rot n]

/-- Vertex k of the rotation fill loop started at polar angle phi sits at
polar angle phi + k * theta. -/
theorem genVertices_rotate_getD (theta rr : ℝ) :
    ∀ (n k : ℕ) (phi : ℝ), k < n →
      (PolygonMesh.genVertices (Mat2d.setRotate theta)
          ⟨rr * Real.cos phi, rr * Real.sin phi⟩ n).getD k ⟨0, 0⟩ =
        ⟨rr * Real.cos (phi + k * theta), rr * Real.sin (phi + k * theta)⟩ := by
  intro n
  induction n with
  | zero => intro k phi hk; exact absurd hk (Nat.not_lt_zero _)
  | succ m ih =>
      intro k phi hk
      rw [PolygonMesh.genVertices]
      match k with
      | 0 => simp
      | j + 1 =>
          rw [List.getD_cons_succ, rotate_map_polar, ih j (phi + theta) (by omega)]
          have hence : phi + theta + j * theta = phi + (j + 1 : ℕ) * theta := by
            push_cast
            ring
          rw [hence]

/-- The pair fill loop produces two vertices per iteration. -/
theorem genVertexPairs_length {α : Type} [LinearOrderedField α] (rot : Mat2d α) :
    ∀ (n : ℕ) (o i : Vec2 α), (PolygonMesh.genVertexPairs rot o i n).length = 2 * n
  | 0, _, _ => rfl
  | n + 1, o, i => by
      rw [PolygonMesh.genVertexPairs, List.length_cons, List.length_cons,
        genVertexPairs_length rot n]
      omega

/-- Pair k of the alternating fill loop: the outer vertex sits at polar
angle phi1 + k * theta at radius r1 and the inner vertex at polar angle
phi2 + k * theta at radius r2. -/
theorem genVertexPairs_rotate_getD (theta r1 r2 : ℝ) :
    ∀ (n k : ℕ) (phi1 phi2 : ℝ), k < n →
      ((PolygonMesh.genVertexPairs (Mat2d.setRotate theta)
            ⟨r1 * Real.cos phi1, r1 * Real.sin phi1⟩
            ⟨r2 * Real.cos phi2, r2 * Real.sin phi2⟩ n).getD (2 * k) ⟨0, 0⟩ =
          ⟨r1 * Real.cos (phi1 + k * theta), r1 * Real.sin (phi1 + k * theta)⟩) ∧
        ((PolygonMesh.genVertexPairs (Mat2d.setRotate theta)
            ⟨r1 * Real.cos phi1, r1 * Real.sin phi1⟩
            ⟨r2 * Real.cos phi2, r2 * Real.sin phi2⟩ n).getD (2 * k + 1) ⟨0, 0⟩ =
          ⟨r2 * Real.cos (phi2 + k * theta), r2 * Real.sin (phi2 + k * theta)⟩) := by
  intro n
  induction n with
  | zero => intro k phi1 phi2 hk; exact absurd hk (Nat.not_lt_zero _)
  | succ m ih =>
      intro k phi1 phi2 hk
      rw [PolygonMesh.genVertexPairs]
      match k with
      | 0 => simp
      | j + 1 =>
          have h3 : 2 * (j + 1) + 1 = (2 * j + 1) + 1 + 1 := by omega
          have h2 : 2 * (j + 1) = (2 * j) + 1 + 1 := by omega
          rw [h3, h2, List.getD_cons_succ, List.getD_cons_succ, List.getD_cons_succ,
            List.getD_cons_succ, rotate_map_polar, rotate_map_polar]
          have ihj := ih j (phi1 + theta) (phi2 + theta) (by omega)
          rw [ihj.1, ihj.2]
          have e1 : phi1 + theta + j * theta = phi1 + (j + 1 : ℕ) * theta := by
            push_cast
            ring
          have e2 : phi2 + theta + j * theta = phi2 + (j + 1 : ℕ) * theta := by
            push_cast
            ring
          rw [e1, e2]
          exact ⟨rfl, rfl⟩

/-- Closed form of the triangle fan index walk: starting from second = s,
third = s + 1, step j emits (0, s + j, s + j + 1). -/
theorem fanIndices_closed :
    ∀ (m s : ℕ), PolygonMesh.fanIndices s (s + 1) m =
      (List.range m).map (fun i => (0, s + i, s + i + 1)) := by
  intro m
  induction m with
  | zero => intro s; rfl
  | succ q ih =>
      intro s
      rw [PolygonMesh.fanIndices, ih (s + 1), List.range_succ_eq_map, List.map_cons,
        List.map_map]
      refine congrArg₂ _ (by simp) ?_
      apply List.map_congr_left
      intro i _
      simp only [Function.comp_apply, Prod.mk.injEq, eq_self_iff_true, true_and]
      omega

/-- Closed form of the inner star index walk: first stays fixed while
second and third advance by two per step. -/
theorem starInnerIndices_closed :
    ∀ (m f s : ℕ), PolygonMesh.starInnerIndices f s (s + 2) m =
      (List.range m).map (fun j => (f, s + 2 * j, s + 2 * j + 2)) := by
  intro m
  induction m with
  | zero => intro f s; rfl
  | succ q ih =>
      intro f s
      rw [PolygonMesh.starInnerIndices, ih f (s + 2), List.range_succ_eq_map,
        List.map_cons, List.map_map]
      refine congrArg₂ _ (by simp) ?_
      apply List.map_congr_left
      intro i _
      simp only [Function.comp_apply, Prod.mk.injEq, eq_self_iff_true, true_and]
      omega

/-- Closed form of the outer star index walk once it has settled into its
consecutive pattern (f, f + 1, f + 2) advancing by two per step. -/
theorem starOuterIndices_closed :
    ∀ (m f : ℕ), PolygonMesh.starOuterIndices f (f + 1) (f + 2) m =
      (List.range m).map (fun j => (f + 2 * j, f + 2 * j + 1, f + 2 * j + 2)) := by
  intro m
  induction m with
  | zero => intro f; rfl
  | succ q ih =>
      intro f
      rw [PolygonMesh.starOuterIndices, ih (f + 2), List.range_succ_eq_map,
        List.map_cons, List.map_map]
      refine congrArg₂ _ (by simp) ?_
      apply List.map_congr_left
      intro i _
      simp only [Function.comp_apply, Prod.mk.injEq, eq_self_iff_true, true_and]
      omega

/-- Folding the inside toggle over a list flips the accumulator once per
element satisfying the edge test, so the result is the exclusive or of the
start value with the parity of the count. -/
theorem foldl_toggle {E : Type} (p : E → Prop) [DecidablePred p] :
    ∀ (l : List E) (b : Bool),
      l.foldl (fun inside e => if p e then !inside else inside) b =
        (b != decide (Odd (l.countP fun e => decide (p e)))) := by
  intro l
  induction l with
  | nil => intro b; simp
  | cons a l2 ih =>
      intro b
      rw [List.foldl_cons, ih, List.countP_cons]
      by_cases h : p a
      · rw [if_pos h]
        have hcnt : ((l2.countP fun e => decide (p e)) +
            if decide (p a) = true then 1 else 0) =
            (l2.countP fun e => decide (p e)) + 1 := by
          simp [h]
        simp only [hcnt, Nat.odd_add_one, decide_not]
        cases b <;> cases hd : decide (Odd (l2.countP fun e => decide (p e))) <;> simp
      · simp [h]

/-! ## Claim theorems -/

/-- Claim C1: on a well-formed camera whose view is linked to its target,
zoom and position (the state setViewport establishes), every offset call
clamps the candidate position per axis against the pan range farRect (the
target shrunk by (zoom - minZoom)/zoom and centered at the origin), moves
view and position by exactly the returned actual offset, and after any
nonempty sequence of offset calls the view rect lies inside the target
rect. -/
theorem c1_offset_clamps_and_view_stays_in_target :
    ∀ c : Camera ℚ, c.WellFormed → c.Linked →
      (∀ v : Vec2 ℚ,
        ((c.camOffset v).1.position.x =
            max c.farRect.left (min (c.position.x + v.x) c.farRect.right) ∧
          (c.camOffset v).1.position.y =
            max c.farRect.bottom (min (c.position.y + v.y) c.farRect.top)) ∧
        (c.camOffset v).1.view = c.view.offsetV (c.camOffset v).2 ∧
        (c.camOffset v).1.position = c.position.add (c.camOffset v).2 ∧
        (c.camOffset v).2 = Vec2.fromPointToPoint c.position (c.camOffset v).1.position ∧
        (c.camOffset v).1.view.insideOf c.target) ∧
      (∀ l : List (Vec2 ℚ), l ≠ [] →
        (l.foldl (fun s w => (s.camOffset w).1) c).view.insideOf c.target) := by
  intro c hwf hl
  constructor
  · intro v
    obtain ⟨hclamp, hv, hp, hret, _, _, _, _, _, _, hin⟩ := camOffset_step c hwf hl v
    exact ⟨hclamp, hv, hp, hret, hin⟩
  · intro l hne
    exact (camOffset_foldl l c hwf hl).2.2.2 hne

/-- Claim C1 witness: a concrete well-formed linked camera, a pan request
far beyond the target boundary, and the resulting view containment. -/
theorem c1_offset_clamps_witness :
    ((⟨⟨-2, 1, 2, -1⟩, ⟨-1, 1/2, 1, -1/2⟩, ⟨0, 0⟩, 2, 1, 4⟩ : Camera ℚ).WellFormed ∧
      (⟨⟨-2, 1, 2, -1⟩, ⟨-1, 1/2, 1, -1/2⟩, ⟨0, 0⟩, 2, 1, 4⟩ : Camera ℚ).Linked) ∧
    ((⟨⟨-2, 1, 2, -1⟩, ⟨-1, 1/2, 1, -1/2⟩, ⟨0, 0⟩, 2, 1, 4⟩ : Camera ℚ).camOffset
        ⟨10, -10⟩).1.view.insideOf ⟨-2, 1, 2, -1⟩ ∧
    (([⟨10, -10⟩, ⟨-3, 7⟩] : List (Vec2 ℚ)).foldl
        (fun (s : Camera ℚ) w => (s.camOffset w).1)
        ⟨⟨-2, 1, 2, -1⟩, ⟨-1, 1/2, 1, -1/2⟩, ⟨0, 0⟩, 2, 1, 4⟩).view.insideOf
      ⟨-2, 1, 2, -1⟩ := by
  have hwf : (⟨⟨-2, 1, 2, -1⟩, ⟨-1, 1/2, 1, -1/2⟩, ⟨0, 0⟩, 2, 1, 4⟩ : Camera ℚ).WellFormed := by
    refine ⟨by norm_num, by norm_num, by norm_num, by norm_num⟩
  have hl : (⟨⟨-2, 1, 2, -1⟩, ⟨-1, 1/2, 1, -1/2⟩, ⟨0, 0⟩, 2, 1, 4⟩ : Camera ℚ).Linked := by
    simp only [Camera.Linked, Rect.stretch, Rect.offsetV, Rect.offset', Rect.centerX,
      Rect.centerY, Rect.width, Rect.height, Rect.mk.injEq]
    norm_num
  exact ⟨⟨hwf, hl⟩,
    ((c1_offset_clamps_and_view_stays_in_target _ hwf hl).1 ⟨10, -10⟩).2.2.2.2,
    (c1_offset_clamps_and_view_stays_in_target _ hwf hl).2 _ (by simp)⟩

/-- Claim C4: mapping a point by setInverse(M) and then by M is the
identity whenever the determinant of M is nonzero (exactly, over the
rationals), and when the determinant is zero every coefficient produced by
setInverse is an Infinity or NaN rather than a finite value. -/
theorem c4_inverse_roundtrip :
    (∀ (m : Mat2d ℚ) (p : Vec2 ℚ), m.determinant ≠ 0 →
      m.map ((Mat2d.setInverse m).map p) = p) ∧
    (∀ m : Mat2d ℚ, m.determinant = 0 →
      ∀ en ∈ (Mat2d.setInverseJs m).entries, en.isFinite = false) := by
  constructor
  · rintro ⟨a, b, c, d, e, f⟩ ⟨px, py⟩ hdet
    simp only [Mat2d.determinant] at hdet
    simp only [Mat2d.map, Mat2d.map', Mat2d.setInverse, Vec2.mk.injEq]
    constructor <;> · field_simp; ring
  · rintro ⟨a, b, c, d, e, f⟩ hdet en hen
    have h0 : a * e - b * d = 0 := by simpa [Mat2d.determinant] using hdet
    have hsub : JsNum.sub (JsNum.mul (.fin a) (.fin e)) (JsNum.mul (.fin b) (.fin d)) =
        JsNum.fin 0 := by
      show JsNum.fin (a * e - b * d) = JsNum.fin 0
      rw [h0]
    have hdiv : JsNum.div (.fin 1) (.fin 0) = JsNum.posInf := by
      norm_num [JsNum.div]
    simp only [Mat2d.setInverseJs, Mat2d.entries, List.mem_cons, List.not_mem_nil,
      or_false] at hen
    rw [hsub, hdiv] at hen
    rcases hen with h | h | h | h | h | h <;> subst h <;>
      exact jsMul_fin_posInf_isFinite _

/-- Claim C4 witness: the round trip at a concrete invertible matrix and
the Infinity/NaN entries at a concrete singular matrix. -/
theorem c4_inverse_roundtrip_witness :
    ((Mat2d.mk 2 0 5 0 3 (-1) : Mat2d ℚ).determinant ≠ 0 ∧
      (Mat2d.mk 2 0 5 0 3 (-1) : Mat2d ℚ).map
        ((Mat2d.setInverse (Mat2d.mk 2 0 5 0 3 (-1))).map ⟨1, 2⟩) = ⟨1, 2⟩) ∧
    ((Mat2d.mk 1 2 3 2 4 6 : Mat2d ℚ).determinant = 0 ∧
      ∀ en ∈ (Mat2d.setInverseJs (Mat2d.mk 1 2 3 2 4 6)).entries, en.isFinite = false) :=
  ⟨⟨by norm_num [Mat2d.determinant],
    c4_inverse_roundtrip.1 _ _ (by norm_num [Mat2d.determinant])⟩,
   ⟨by norm_num [Mat2d.determinant],
    c4_inverse_roundtrip.2 _ (by norm_num [Mat2d.determinant])⟩⟩

/-- Claim C8: setConcat composes maps in left-after-right order, postConcat
and preConcat are the two concatenation orders, postTranslate and postScale
agree with post-concatenation by the corresponding elementary matrices, and
the concrete translate scenario holds; the postRotate evaluation then shows
the divergence of the code: rotating the identity by an angle of zero
yields the quarter-turn matrix instead of the identity, because the source
initialises its local sin with Math.cos and its local cos with Math.sin
(and uses sin times c3r2 where the rotation formula needs cos times c3r2),
so postRotate is not post-concatenation with the rotation matrix. -/
theorem c8_concat_soundness_and_postRotate_divergence :
    (∀ (l r : Mat2d ℚ) (p : Vec2 ℚ), (Mat2d.setConcat l r).map p = l.map (r.map p)) ∧
    (∀ m other : Mat2d ℚ, m.postConcat other = Mat2d.setConcat other m) ∧
    (∀ m other : Mat2d ℚ, m.preConcat other = Mat2d.setConcat m other) ∧
    (∀ (m : Mat2d ℚ) (dx dy : ℚ),
      m.postTranslate' dx dy = m.postConcat (Mat2d.setTranslate' dx dy)) ∧
    (∀ (m : Mat2d ℚ) (sx sy : ℚ), m.postScale sx sy = m.postConcat (Mat2d.setScale sx sy)) ∧
    ((Mat2d.identity.postTranslate ⟨5, 0⟩).map ⟨0, 0⟩ = (⟨5, 0⟩ : Vec2 ℚ)) ∧
    ((Mat2d.identity.postRotate 0).map ⟨1, 0⟩ = (⟨0, 1⟩ : Vec2 ℝ) ∧
      (Mat2d.identity.postConcat (Mat2d.setRotate 0)).map ⟨1, 0⟩ = (⟨1, 0⟩ : Vec2 ℝ) ∧
      Mat2d.identity.postRotate 0 ≠ Mat2d.identity.postConcat (Mat2d.setRotate 0)) := by
  refine ⟨?_, ?_, ?_, ?_, ?_, ?_, ?_, ?_, ?_⟩
  · rintro ⟨a, b, c, d, e, f⟩ ⟨a2, b2, c2, d2, e2, f2⟩ ⟨px, py⟩
    simp only [Mat2d.setConcat, Mat2d.map, Mat2d.map', Vec2.mk.injEq]
    constructor <;> ring
  · intro m other; rfl
  · intro m other; rfl
  · rintro ⟨a, b, c, d, e, f⟩ dx dy
    simp only [Mat2d.postTranslate', Mat2d.postConcat, Mat2d.setConcat, Mat2d.setTranslate',
      Mat2d.mk.injEq]
    refine ⟨by ring, by ring, by ring, by ring, by ring, by ring⟩
  · rintro ⟨a, b, c, d, e, f⟩ sx sy
    simp only [Mat2d.postScale, Mat2d.postConcat, Mat2d.setConcat, Mat2d.setScale,
      Mat2d.mk.injEq]
    refine ⟨by ring, by ring, by ring, by ring, by ring, by ring⟩
  · simp only [Mat2d.identity, Mat2d.postTranslate, Mat2d.postTranslate', Mat2d.map,
      Mat2d.map', Vec2.mk.injEq]
    norm_num
  · simp only [Mat2d.postRotate, Mat2d.identity, Real.sin_zero, Real.cos_zero, Mat2d.map,
      Mat2d.map', Vec2.mk.injEq]
    norm_num
  · simp only [Mat2d.postConcat, Mat2d.setConcat, Mat2d.setRotate, Mat2d.setSinCos,
      Mat2d.identity, Real.sin_zero, Real.cos_zero, Mat2d.map, Mat2d.map', Vec2.mk.injEq]
    norm_num
  · intro h
    have h11 := congrArg Mat2d.c1r1 h
    simp only [Mat2d.postRotate, Mat2d.postConcat, Mat2d.setConcat, Mat2d.setRotate,
      Mat2d.setSinCos, Mat2d.identity, Real.sin_zero, Real.cos_zero] at h11
    norm_num at h11

/-- Claim C6: setRectToRect maps the mode's anchor point of src exactly
onto the corresponding anchor point of dst (center for Center, top left
for Start and Fill, bottom right for End), with independent x and y scales
dst/src for Fill and the uniform scale min(sx, sy) for the other modes;
for Fill, with nondegenerate src extents, all four corners of src map
exactly onto the corresponding corners of dst. -/
theorem c6_setRectToRect_anchors :
    ∀ (src dst : Rect ℚ) (stf : ScaleToFit),
      ((Mat2d.setRectToRect src dst stf).map (scaleToFitAnchor src stf) =
        scaleToFitAnchor dst stf) ∧
      (stf = ScaleToFit.Fill →
        (Mat2d.setRectToRect src dst stf).c1r1 = dst.width / src.width ∧
        (Mat2d.setRectToRect src dst stf).c2r2 = dst.height / src.height ∧
        (Mat2d.setRectToRect src dst stf).c2r1 = 0 ∧
        (Mat2d.setRectToRect src dst stf).c1r2 = 0) ∧
      (stf ≠ ScaleToFit.Fill →
        (Mat2d.setRectToRect src dst stf).c1r1 =
          min (dst.width / src.width) (dst.height / src.height) ∧
        (Mat2d.setRectToRect src dst stf).c2r2 =
          min (dst.width / src.width) (dst.height / src.height) ∧
        (Mat2d.setRectToRect src dst stf).c2r1 = 0 ∧
        (Mat2d.setRectToRect src dst stf).c1r2 = 0) ∧
      (stf = ScaleToFit.Fill → src.width ≠ 0 → src.height ≠ 0 →
        (Mat2d.setRectToRect src dst stf).map src.topLeft = dst.topLeft ∧
        (Mat2d.setRectToRect src dst stf).map src.bottomRight = dst.bottomRight ∧
        (Mat2d.setRectToRect src dst stf).map src.bottomLeft = dst.bottomLeft ∧
        (Mat2d.setRectToRect src dst stf).map src.topRight = dst.topRight) := by
  rintro ⟨sl, st, sr, sb⟩ ⟨dl, dt, dr, db⟩ stf
  refine ⟨?_, ?_, ?_, ?_⟩
  · cases stf <;>
      · simp only [Mat2d.setRectToRect, scaleToFitAnchor, Rect.center, Rect.centerX,
          Rect.centerY, Rect.topLeft, Rect.bottomRight, Mat2d.setTranslate',
          Mat2d.postScale, Mat2d.postStretch, Mat2d.postTranslate, Mat2d.postTranslate',
          Mat2d.map, Mat2d.map', Vec2.mk.injEq, reduceCtorEq, if_true, if_false,
          reduceIte]
        constructor <;> ring
  · rintro rfl
    simp only [Mat2d.setRectToRect, scaleToFitAnchor, Rect.topLeft, Rect.width,
      Rect.height, Mat2d.setTranslate', Mat2d.postScale, Mat2d.postTranslate,
      Mat2d.postTranslate', reduceIte]
    refine ⟨by ring, by ring, by ring, by ring⟩
  · intro hne
    cases stf
    case Fill => exact absurd rfl hne
    all_goals
      simp only [Mat2d.setRectToRect, scaleToFitAnchor, Rect.center, Rect.centerX,
        Rect.centerY, Rect.topLeft, Rect.bottomRight, Rect.width, Rect.height,
        Mat2d.setTranslate', Mat2d.postStretch, Mat2d.postScale, Mat2d.postTranslate,
        Mat2d.postTranslate', reduceCtorEq, reduceIte]
    all_goals refine ⟨by ring, by ring, by ring, by ring⟩
  · rintro rfl hw hh
    simp only [Rect.width, Rect.height] at hw hh
    simp only [Mat2d.setRectToRect, scaleToFitAnchor, Rect.topLeft, Rect.bottomRight,
      Rect.bottomLeft, Rect.topRight, Rect.width, Rect.height, Mat2d.setTranslate',
      Mat2d.postScale, Mat2d.postTranslate, Mat2d.postTranslate', Mat2d.map, Mat2d.map',
      Vec2.mk.injEq, reduceIte]
    refine ⟨⟨?_, ?_⟩, ⟨?_, ?_⟩, ⟨?_, ?_⟩, ⟨?_, ?_⟩⟩ <;>
      · field_simp
        ring

/-- Claim C6 witness: the anchor mapping, the Fill corner mapping, and the
uniform minimum scale at concrete rects. -/
theorem c6_setRectToRect_anchors_witness :
    ((Mat2d.setRectToRect (⟨0, 2, 4, 0⟩ : Rect ℚ) ⟨1, 8, 9, 2⟩ ScaleToFit.Fill).map
        (scaleToFitAnchor ⟨0, 2, 4, 0⟩ ScaleToFit.Fill) =
      scaleToFitAnchor (⟨1, 8, 9, 2⟩ : Rect ℚ) ScaleToFit.Fill) ∧
    ((⟨0, 2, 4, 0⟩ : Rect ℚ).width ≠ 0 ∧ (⟨0, 2, 4, 0⟩ : Rect ℚ).height ≠ 0 ∧
      (Mat2d.setRectToRect (⟨0, 2, 4, 0⟩ : Rect ℚ) ⟨1, 8, 9, 2⟩ ScaleToFit.Fill).map
        (⟨0, 2, 4, 0⟩ : Rect ℚ).bottomRight = (⟨1, 8, 9, 2⟩ : Rect ℚ).bottomRight) ∧
    (ScaleToFit.Center ≠ ScaleToFit.Fill ∧
      (Mat2d.setRectToRect (⟨0, 2, 4, 0⟩ : Rect ℚ) ⟨1, 8, 9, 2⟩ ScaleToFit.Center).c1r1 =
        min ((⟨1, 8, 9, 2⟩ : Rect ℚ).width / (⟨0, 2, 4, 0⟩ : Rect ℚ).width)
          ((⟨1, 8, 9, 2⟩ : Rect ℚ).height / (⟨0, 2, 4, 0⟩ : Rect ℚ).height)) := by
  have hW : (⟨0, 2, 4, 0⟩ : Rect ℚ).width ≠ 0 := by norm_num [Rect.width]
  have hH : (⟨0, 2, 4, 0⟩ : Rect ℚ).height ≠ 0 := by norm_num [Rect.height]
  refine ⟨(c6_setRectToRect_anchors _ _ ScaleToFit.Fill).1,
    ⟨hW, hH, ((c6_setRectToRect_anchors _ _ ScaleToFit.Fill).2.2.2 rfl hW hH).2.1⟩,
    ⟨by decide, ((c6_setRectToRect_anchors _ _ ScaleToFit.Center).2.2.1 (by decide)).1⟩⟩

/-- Claim C2: at a camera sitting at maxZoom, a further zoomIn by a factor
of two: the converged revision returns an actual scale factor of one and
leaves the view unchanged as the claim states, while the earlier revision
of part_004 also returns one but still shrinks the view, because it
stretches by the reciprocal of the desired rather than the actual scale
factor. -/
theorem c2_zoomIn_earlier_divergence :
    (Camera.zoomIn (⟨⟨-1, 1, 1, -1⟩, ⟨-1/2, 1/2, 1/2, -1/2⟩, ⟨0, 0⟩, 2, 1, 2⟩ : Camera ℚ)
      2).2 = 1 ∧
    (Camera.zoomIn (⟨⟨-1, 1, 1, -1⟩, ⟨-1/2, 1/2, 1/2, -1/2⟩, ⟨0, 0⟩, 2, 1, 2⟩ : Camera ℚ)
      2).1.view = ⟨-1/2, 1/2, 1/2, -1/2⟩ ∧
    (Camera.zoomInEarlier
      (⟨⟨-1, 1, 1, -1⟩, ⟨-1/2, 1/2, 1/2, -1/2⟩, ⟨0, 0⟩, 2, 1, 2⟩ : Camera ℚ) 2).2 = 1 ∧
    (Camera.zoomInEarlier
      (⟨⟨-1, 1, 1, -1⟩, ⟨-1/2, 1/2, 1/2, -1/2⟩, ⟨0, 0⟩, 2, 1, 2⟩ : Camera ℚ) 2).1.view =
      ⟨-1/4, 1/4, 1/4, -1/4⟩ ∧
    (⟨-1/4, 1/4, 1/4, -1/4⟩ : Rect ℚ) ≠ ⟨-1/2, 1/2, 1/2, -1/2⟩ := by
  refine ⟨?_, ?_, ?_, ?_, ?_⟩ <;>
    norm_num [Camera.zoomIn, Camera.zoomInEarlier, Rect.stretch, Rect.centerX, Rect.centerY,
      Rect.width, Rect.height, Rect.mk.injEq]

/-- Claim C7: offset$ and transform do not leave vertices outside
[offset, offset + count) unchanged: on the two-vertex buffer
[(0,0), (10,10)], offset$(1, 1, 0, 1) also adds the delta to vertex 1
(the loop runs from i = 0 to count inclusive), and transform(scale2, 0, 1)
also maps vertex 1 (the forwarding call drops count, so mapPoints$ runs to
the end of the buffer). -/
theorem c7_subrange_not_preserved :
    (VertexBuffer.offset' (1 : ℚ) 1 0 1 [0, 0, 10, 10] = [1, 1, 11, 11] ∧
      VertexBuffer.vertexAt (VertexBuffer.offset' (1 : ℚ) 1 0 1 [0, 0, 10, 10]) 1 ≠
        VertexBuffer.vertexAt ([0, 0, 10, 10] : List ℚ) 1) ∧
    (VertexBuffer.transform (Mat2d.setScale (2 : ℚ) 2) 0 1 [0, 0, 10, 10] =
        [0, 0, 20, 20] ∧
      VertexBuffer.vertexAt
          (VertexBuffer.transform (Mat2d.setScale (2 : ℚ) 2) 0 1 [0, 0, 10, 10]) 1 ≠
        VertexBuffer.vertexAt ([0, 0, 10, 10] : List ℚ) 1) := by
  refine ⟨⟨?_, ?_⟩, ?_, ?_⟩ <;>
    norm_num [VertexBuffer.offset', VertexBuffer.offsetLoop, VertexBuffer.transform,
      VertexBuffer.mapPoints', VertexBuffer.mapPointsLoop, VertexBuffer.getData,
      VertexBuffer.vertexAt, Mat2d.setScale, Prod.ext_iff]

/-- Claim C5: the spray instance count is m * (2^rings - 1) with ring k
holding m * 2^k copies; in the converged revision (src/drawable/mesh.ts)
the returned mesh's packed vertex buffer has capacity
instanceVertexCount * instanceCount and its packed index buffer holds
t * instanceCount triples, copy c's triples offset by that copy's vertex
offset c * v; the earlier revision (src/mesh/instancedPolygon.ts) builds
those same packed buffers but returns the instance's original buffers, so
its returned vertex capacity is v, not v * instanceCount. -/
theorem c5_spray_counts_and_earlier_return :
    (∀ m rings : ℕ,
      InstancedPolygonMesh.sprayTotalCopies m rings = m * (2 ^ rings - 1) ∧
      InstancedPolygonMesh.countInstancesInSpray m rings = m * (2 ^ rings - 1) ∧
      ∀ k : ℕ, InstancedPolygonMesh.sprayRingCopies m k = m * 2 ^ k) ∧
    (∀ (v : ℕ) (instTriples : List (ℕ × ℕ × ℕ)) (m rings : ℕ),
      (InstancedPolygonMesh.spray v instTriples m rings).vertexCapacity =
        v * InstancedPolygonMesh.countInstancesInSpray m rings ∧
      (InstancedPolygonMesh.spray v instTriples m rings).triples.length =
        instTriples.length * InstancedPolygonMesh.countInstancesInSpray m rings ∧
      ∀ cpy j : ℕ, cpy < InstancedPolygonMesh.countInstancesInSpray m rings →
        j < instTriples.length →
        (InstancedPolygonMesh.spray v instTriples m rings).triples.getD
            (cpy * instTriples.length + j) (0, 0, 0) =
          ((instTriples.getD j (0, 0, 0)).1 + cpy * v,
            (instTriples.getD j (0, 0, 0)).2.1 + cpy * v,
            (instTriples.getD j (0, 0, 0)).2.2 + cpy * v)) ∧
    ((InstancedPolygonMesh.sprayEarlier 3 [(0, 1, 2)] 1 2).vertexCapacity = 3 ∧
      3 * InstancedPolygonMesh.countInstancesInSpray 1 2 = 9 ∧
      (InstancedPolygonMesh.sprayEarlier 3 [(0, 1, 2)] 1 2).triples.length = 1 ∧ (3 : ℕ) ≠ 9) := by
  refine ⟨?_, ?_, by decide, by decide, by decide, by decide⟩
  · intro m rings
    refine ⟨?_, ?_, fun k => ?_⟩
    · induction rings with
      | zero => simp [InstancedPolygonMesh.sprayTotalCopies]
      | succ n ih =>
          rw [InstancedPolygonMesh.sprayTotalCopies, List.range_succ, List.map_append,
            List.sum_append]
          rw [InstancedPolygonMesh.sprayTotalCopies] at ih
          simp only [List.map_cons, List.map_nil, List.sum_cons, List.sum_nil, ih,
            InstancedPolygonMesh.sprayRingCopies, Nat.shiftLeft_eq, pow_succ]
          have h1 : 1 ≤ 2 ^ n := Nat.one_le_two_pow
          have h2 : 1 ≤ 2 ^ n * 2 := by omega
          zify [h1, h2]
          ring
    · rw [InstancedPolygonMesh.countInstancesInSpray, Nat.shiftLeft_eq, one_mul]
    · rw [InstancedPolygonMesh.sprayRingCopies, Nat.shiftLeft_eq]
  · intro v instTriples m rings
    refine ⟨rfl, ?_, ?_⟩
    · show (InstancedPolygonMesh.sprayIndices instTriples v
          (InstancedPolygonMesh.countInstancesInSpray m rings)).length = _
      rw [InstancedPolygonMesh.sprayIndices,
        flatMapRange_length _ instTriples.length (fun cNum => List.length_map _ _),
        Nat.mul_comm]
    · intro cpy j hc hj
      have hget : (InstancedPolygonMesh.spray v instTriples m rings).triples.getD
          (cpy * instTriples.length + j) (0, 0, 0) =
          ((instTriples.map
            (fun t => (t.1 + cpy * v, t.2.1 + cpy * v, t.2.2 + cpy * v))).getD
            j (0, 0, 0)) := by
        exact flatMapRange_getD _ instTriples.length (fun cNum => List.length_map _ _)
          (0, 0, 0) _ cpy j hc hj
      rw [hget]
      simp [List.getD_eq_getElem?_getD, List.getElem?_map, List.getElem?_eq_getElem hj]

/-- Claim C10: regularVertices(n, false) produces exactly n vertices evenly
spaced on the unit circle, vertex k at angle pi/2 + k * (2pi/n) (pointy
top: the walk starts with rotation offset zero from the top vertex (0,1);
the flat-top variant applies an extra half-sector rotation), each at
distance 1 from the origin; regularIndices(n) is the triangle fan
(0, i, i+1) for i in 1..n-2, i.e. n - 2 triples and 3(n-2) indices. -/
theorem c10_regular_polygon (n : ℕ) (hn : 3 ≤ n) :
    (PolygonMesh.regularVertices n false).length = n ∧
    (∀ k, k < n →
      (PolygonMesh.regularVertices n false).getD k ⟨0, 0⟩ =
        ⟨Real.cos (Real.pi / 2 + k * (2 * Real.pi / n)),
          Real.sin (Real.pi / 2 + k * (2 * Real.pi / n))⟩ ∧
      ((PolygonMesh.regularVertices n false).getD k ⟨0, 0⟩).x ^ 2 +
        ((PolygonMesh.regularVertices n false).getD k ⟨0, 0⟩).y ^ 2 = 1) ∧
    (∀ k, k < n →
      (PolygonMesh.regularVertices n true).getD k ⟨0, 0⟩ =
        ⟨Real.cos (Real.pi / 2 + (2 * Real.pi / n) / 2 + k * (2 * Real.pi / n)),
          Real.sin (Real.pi / 2 + (2 * Real.pi / n) / 2 + k * (2 * Real.pi / n))⟩) ∧
    PolygonMesh.regularIndices n =
      (List.range (n - 2)).map (fun i => (0, i + 1, i + 2)) ∧
    (PolygonMesh.regularIndices n).length = n - 2 ∧
    3 * (PolygonMesh.regularIndices n).length = 3 * (n - 2) := by
  have hstart : (⟨0, 1⟩ : Vec2 ℝ) =
      ⟨1 * Real.cos (Real.pi / 2), 1 * Real.sin (Real.pi / 2)⟩ := by
    simp [Real.cos_pi_div_two, Real.sin_pi_div_two]
  have hflat : PolygonMesh.regularVertices n false =
      PolygonMesh.genVertices (Mat2d.setRotate (2 * Real.pi / n))
        ⟨1 * Real.cos (Real.pi / 2), 1 * Real.sin (Real.pi / 2)⟩ n := by
    rw [PolygonMesh.regularVertices, ← hstart]
    simp
  have hflatT : PolygonMesh.regularVertices n true =
      PolygonMesh.genVertices (Mat2d.setRotate (2 * Real.pi / n))
        ⟨1 * Real.cos (Real.pi / 2 + (2 * Real.pi / n) / 2),
          1 * Real.sin (Real.pi / 2 + (2 * Real.pi / n) / 2)⟩ n := by
    rw [PolygonMesh.regularVertices]
    simp only [if_true, eq_self_iff_true]
    rw [hstart, rotate_map_polar]
  have hidx : PolygonMesh.regularIndices n =
      (List.range (n - 2)).map (fun i => (0, i + 1, i + 2)) := by
    rw [PolygonMesh.regularIndices]
    refine (fanIndices_closed (n - 2) 1).trans ?_
    apply List.map_congr_left
    intro i _
    simp only [Prod.mk.injEq, eq_self_iff_true, true_and]
    omega
  refine ⟨?_, ?_, ?_, hidx, ?_, ?_⟩
  · rw [hflat]
    exact genVertices_length _ n _
  · intro k hk
    rw [hflat, genVertices_rotate_getD (2 * Real.pi / n) 1 n k (Real.pi / 2) hk]
    simp [Real.cos_sq_add_sin_sq]
  · intro k hk
    rw [hflatT, genVertices_rotate_getD (2 * Real.pi / n) 1 n k
      (Real.pi / 2 + (2 * Real.pi / n) / 2) hk]
    simp
  · rw [hidx]
    simp
  · rw [hidx]
    simp

/-- Claim C10 witness: the square, with four vertices and two fan
triangles. -/
theorem c10_regular_polygon_witness :
    3 ≤ 4 ∧ (PolygonMesh.regularVertices 4 false).length = 4 ∧
      (PolygonMesh.regularIndices 4).length = 4 - 2 :=
  ⟨by norm_num, (c10_regular_polygon 4 (by norm_num)).1,
    (c10_regular_polygon 4 (by norm_num)).2.2.2.2.1⟩

/-- Claim C9: starVertices(n, ratio) produces 2n vertices alternating an
outer vertex at radius 1 and an inner vertex at radius ratio at half-angle
increments, and starIndices(n) is n - 2 inner triples walking
(1, 3, 5), (1, 5, 7), ... followed by n outer triples walking
(2n-1, 0, 1), (1, 2, 3), (3, 4, 5), ..., for 3(n-2) + 3n indices in
total. -/
theorem c9_star_mesh (n : ℕ) (hn : 3 ≤ n) (rat : ℝ) :
    (PolygonMesh.starVertices n rat).length = 2 * n ∧
    (∀ k, k < n →
      (PolygonMesh.starVertices n rat).getD (2 * k) ⟨0, 0⟩ =
        ⟨Real.cos (Real.pi / 2 + k * (2 * Real.pi / n)),
          Real.sin (Real.pi / 2 + k * (2 * Real.pi / n))⟩ ∧
      (PolygonMesh.starVertices n rat).getD (2 * k + 1) ⟨0, 0⟩ =
        ⟨rat * Real.cos (Real.pi / 2 + 0.5 * (2 * Real.pi / n) + k * (2 * Real.pi / n)),
          rat * Real.sin (Real.pi / 2 + 0.5 * (2 * Real.pi / n) + k * (2 * Real.pi / n))⟩ ∧
      ((PolygonMesh.starVertices n rat).getD (2 * k) ⟨0, 0⟩).x ^ 2 +
        ((PolygonMesh.starVertices n rat).getD (2 * k) ⟨0, 0⟩).y ^ 2 = 1 ∧
      ((PolygonMesh.starVertices n rat).getD (2 * k + 1) ⟨0, 0⟩).x ^ 2 +
        ((PolygonMesh.starVertices n rat).getD (2 * k + 1) ⟨0, 0⟩).y ^ 2 = rat ^ 2) ∧
    PolygonMesh.starIndices n =
      (List.range (n - 2)).map (fun j => (1, 2 * j + 3, 2 * j + 5)) ++
        ((2 * n - 1, 0, 1) ::
          (List.range (n - 1)).map (fun j => (2 * j + 1, 2 * j + 2, 2 * j + 3))) ∧
    (PolygonMesh.starIndices n).length = (n - 2) + n ∧
    3 * (PolygonMesh.starIndices n).length = 3 * (n - 2) + 3 * n := by
  have hstart1 : (⟨0, 1⟩ : Vec2 ℝ) =
      ⟨1 * Real.cos (Real.pi / 2), 1 * Real.sin (Real.pi / 2)⟩ := by
    simp [Real.cos_pi_div_two, Real.sin_pi_div_two]
  have hstart2 : (⟨0, rat⟩ : Vec2 ℝ) =
      ⟨rat * Real.cos (Real.pi / 2), rat * Real.sin (Real.pi / 2)⟩ := by
    simp [Real.cos_pi_div_two, Real.sin_pi_div_two]
  have hsv : PolygonMesh.starVertices n rat =
      PolygonMesh.genVertexPairs (Mat2d.setRotate (2 * Real.pi / n))
        ⟨1 * Real.cos (Real.pi / 2), 1 * Real.sin (Real.pi / 2)⟩
        ⟨rat * Real.cos (Real.pi / 2 + 0.5 * (2 * Real.pi / n)),
          rat * Real.sin (Real.pi / 2 + 0.5 * (2 * Real.pi / n))⟩ n := by
    rw [PolygonMesh.starVertices, hstart1, hstart2, rotate_map_polar]
  have hinner : PolygonMesh.starInnerIndices 1 3 5 (n - 2) =
      (List.range (n - 2)).map (fun j => (1, 2 * j + 3, 2 * j + 5)) := by
    refine (starInnerIndices_closed (n - 2) 1 3).trans ?_
    apply List.map_congr_left
    intro j _
    simp only [Prod.mk.injEq, eq_self_iff_true, true_and]
    omega
  obtain ⟨m, rfl⟩ : ∃ m, n = m + 1 := ⟨n - 1, by omega⟩
  have houter : PolygonMesh.starOuterIndices (2 * (m + 1) - 1) 0 1 (m + 1) =
      (2 * (m + 1) - 1, 0, 1) ::
        (List.range m).map (fun j => (2 * j + 1, 2 * j + 2, 2 * j + 3)) := by
    rw [PolygonMesh.starOuterIndices]
    refine congrArg₂ _ rfl ?_
    refine (starOuterIndices_closed m 1).trans ?_
    apply List.map_congr_left
    intro j _
    simp only [Prod.mk.injEq, eq_self_iff_true, true_and]
    omega
  have hidx : PolygonMesh.starIndices (m + 1) =
      (List.range (m + 1 - 2)).map (fun j => (1, 2 * j + 3, 2 * j + 5)) ++
        ((2 * (m + 1) - 1, 0, 1) ::
          (List.range (m + 1 - 1)).map (fun j => (2 * j + 1, 2 * j + 2, 2 * j + 3))) := by
    rw [PolygonMesh.starIndices, hinner, houter]
    simp
  refine ⟨?_, ?_, hidx, ?_, ?_⟩
  · rw [hsv]
    exact genVertexPairs_length _ (m + 1) _ _
  · intro k hk
    have hp := genVertexPairs_rotate_getD (2 * Real.pi / (m + 1 : ℕ)) 1 rat (m + 1) k
      (Real.pi / 2) (Real.pi / 2 + 0.5 * (2 * Real.pi / (m + 1 : ℕ))) hk
    rw [hsv]
    refine ⟨?_, ?_, ?_, ?_⟩
    · rw [hp.1]
      simp
    · rw [hp.2]
    · rw [hp.1]
      simp [Real.cos_sq_add_sin_sq]
    · rw [hp.2]
      have := Real.cos_sq_add_sin_sq
        (Real.pi / 2 + 0.5 * (2 * Real.pi / (m + 1 : ℕ)) + k * (2 * Real.pi / (m + 1 : ℕ)))
      nlinarith [this]
  · rw [hidx]
    simp
  · rw [hidx]
    simp
    omega

/-- Claim C9 witness: the five-pointed star with inner radius one half. -/
theorem c9_star_mesh_witness :
    3 ≤ 5 ∧ (PolygonMesh.starVertices 5 (1 / 2)).length = 2 * 5 ∧
      (PolygonMesh.starIndices 5).length = (5 - 2) + 5 :=
  ⟨by norm_num, (c9_star_mesh 5 (by norm_num) (1 / 2)).1,
    (c9_star_mesh 5 (by norm_num) (1 / 2)).2.2.2.1⟩

/-- Claim C3: contains$ implements the ray-casting rule, returning true
exactly when an odd number of edges of the closed polygon (the edge from
the last vertex of the subrange back to the first is implicit) satisfies
the crossing test; consequently the generated square regularVertices(4)
contains the origin but no point at distance 2 from the origin along an
axis. -/
theorem c3_contains_raycast :
    (∀ (x y : ℚ) (data : List ℚ) (offset count : ℕ),
      VertexBuffer.contains' x y data offset count = true ↔
        Odd ((VertexBuffer.edges data offset count).countP
          fun e => decide (VertexBuffer.isInside x y e.1.1 e.1.2 e.2.1 e.2.2))) ∧
    (VertexBuffer.contains' (0 : ℝ) 0
        (VertexBuffer.toData (PolygonMesh.regularVertices 4 false)) 0 4 = true ∧
      VertexBuffer.contains' (2 : ℝ) 0
        (VertexBuffer.toData (PolygonMesh.regularVertices 4 false)) 0 4 = false ∧
      VertexBuffer.contains' (0 : ℝ) 2
        (VertexBuffer.toData (PolygonMesh.regularVertices 4 false)) 0 4 = false ∧
      VertexBuffer.contains' (-2 : ℝ) 0
        (VertexBuffer.toData (PolygonMesh.regularVertices 4 false)) 0 4 = false ∧
      VertexBuffer.contains' (0 : ℝ) (-2)
        (VertexBuffer.toData (PolygonMesh.regularVertices 4 false)) 0 4 = false) := by
  have hverts : PolygonMesh.regularVertices 4 false =
      [⟨0, 1⟩, ⟨-1, 0⟩, ⟨0, -1⟩, ⟨1, 0⟩] := by
    have hang : (2 * Real.pi / ((4 : ℕ) : ℝ)) = Real.pi / 2 := by
      push_cast
      ring
    have hrot : Mat2d.setRotate (2 * Real.pi / ((4 : ℕ) : ℝ)) =
        (⟨0, -1, 0, 1, 0, 0⟩ : Mat2d ℝ) := by
      rw [Mat2d.setRotate, hang, Real.sin_pi_div_two, Real.cos_pi_div_two]
      rfl
    rw [PolygonMesh.regularVertices]
    simp only [Bool.false_eq_true, if_false, hrot]
    norm_num [PolygonMesh.genVertices, Mat2d.map, Mat2d.map']
  have hdata : VertexBuffer.toData (PolygonMesh.regularVertices 4 false) =
      [0, 1, -1, 0, 0, -1, 1, 0] := by
    rw [hverts]
    norm_num [VertexBuffer.toData]
  constructor
  · intro x y data offset count
    rw [VertexBuffer.contains',
      foldl_toggle (fun e => VertexBuffer.isInside x y e.1.1 e.1.2 e.2.1 e.2.2)
        (VertexBuffer.edges data offset count) false]
    simp
  · rw [hdata]
    refine ⟨?_, ?_, ?_, ?_, ?_⟩ <;>
      norm_num [VertexBuffer.contains', VertexBuffer.edges, VertexBuffer.subVertices,
        VertexBuffer.vertexAt, VertexBuffer.getData, VertexBuffer.isInside,
        List.range_succ]

end Gl2d
